import Mathlib

/-!
Verification of the kyselyx seed/migration reconciliation core.

This file gives a shallow embedding of the relevant functions of the
repository (`getNameParts`, `doesNameMatch`, `getTargetSeed` from the
utilities module, and the rollback-target selection and seed-before-migration
ordering of `undo`/`undoAll` from `migrate.ts`) and proves or refutes the
frozen claims about them.

Modelling conventions:
* JavaScript numbers holding epoch-millisecond timestamps are modelled as
  `Nat` (all values involved are far below 2^53, where JS arithmetic is
  exact); the `Infinity` ceiling is modelled by the dedicated `Ceiling.inf`
  constructor.
* The JS identity test `props.migration === allMigrations.at(-1)` in the
  concrete-migration branch of `getTargetSeed` compares the caller's reference
  with an object freshly rebuilt inside the same call, so it is always false
  at runtime; the model reflects this by omitting its (dead) `Infinity` arm.
  The `indexOf` in `undo` searches for the very object `find` returned from
  the same array, where structural equality coincides with identity.
* `if (name)` in `undo` tests JS truthiness: an empty-string name takes the
  same branch as an undefined one.
* A JS function that can throw (here: the non-null assertion
  `allMigrations.at(migrationIdx + 1)!.timestamp`) is modelled with an
  `Option` result, `none` standing for an uncaught exception.
* `Array.prototype.at`, `findIndex` and `indexOf` are modelled by `atJS`,
  `findIndexJS` and `indexOfJS` below, including their negative-index and
  `-1` conventions.
-/

namespace Kyselyx

/-- Digit class `\d` of the JS regexes: an ASCII decimal digit. -/
def isDigitChar (c : Char) : Bool := '0' ≤ c && c ≤ '9'

/-- The characters that `.` of a JS regex (without the `s` flag) does not
match: line terminators. -/
def isNewlineChar (c : Char) : Bool :=
  c = '\n' || c = '\r' || c.toNat = 0x2028 || c.toNat = 0x2029

/-- Value of `parseInt` on a non-empty string of decimal digits. -/
def digitsToNat (cs : List Char) : Nat :=
  cs.foldl (fun n c => 10 * n + (c.toNat - 48)) 0

/-- A migration as produced by `getMigrations`: the raw `name` together with
the parsed `timestamp` and `label` and the applied marker (`executedAt` is a
date in the source; only its presence matters here). -/
structure Migration where
  name : String
  timestamp : Nat
  label : String
  executedAt : Bool
deriving DecidableEq, Repr

/-- A seed as produced by `getSeeds`, same shape as `Migration`. -/
structure Seed where
  name : String
  timestamp : Nat
  label : String
  executedAt : Bool
deriving DecidableEq, Repr

/-- The `migration` argument of `getTargetSeed`: either the `NO_MIGRATIONS`
sentinel or a concrete migration. -/
inductive MigrationRef where
  | noMigrations
  | mig (m : Migration)
deriving DecidableEq, Repr

/-- The `seed` argument of `getTargetSeed`: either the `NO_SEEDS` sentinel or
a concrete seed. -/
inductive SeedRef where
  | noSeeds
  | seed (s : Seed)
deriving DecidableEq, Repr

/-- A resolved seed target: the `NO_SEEDS` sentinel or a concrete seed. -/
inductive SeedTarget where
  | noSeeds
  | seed (s : Seed)
deriving DecidableEq, Repr

/-- The explicit result value of `getTargetSeed`: `ok` with a target, or a
`SeedError` carrying its distinguishing error code. -/
inductive ResolveOutcome where
  | ok (t : SeedTarget)
  | err (code : String)
deriving DecidableEq, Repr

/-- The ceiling (`maxTimestamp` in the source): a finite timestamp or the JS
`Infinity`. -/
inductive Ceiling where
  | fin (t : Nat)
  | inf
deriving DecidableEq, Repr

/-- Comparison `seed.timestamp <= maxTimestamp` with `maxTimestamp` possibly `Infinity`. -/
def leCeiling (t : Nat) : Ceiling → Bool
  | .fin m => decide (t ≤ m)
  | .inf => true

/-- JS `Array.prototype.at`: negative indices count from the end, out of
range yields `undefined`. -/
def atJS {α : Type} (l : List α) (i : Int) : Option α :=
  let j : Int := if i < 0 then (l.length : Int) + i else i
  if 0 ≤ j then l[j.toNat]? else none

/-- JS `Array.prototype.findIndex`: first index satisfying the predicate,
`-1` when there is none. -/
def findIndexJS {α : Type} (p : α → Bool) : List α → Int
  | [] => -1
  | a :: l =>
    if p a then 0
    else
      let r := findIndexJS p l
      if r = -1 then -1 else r + 1

/-- JS `Array.prototype.indexOf`: first index equal to the element, `-1` when
there is none (object identity modelled as structural equality). -/
def indexOfJS {α : Type} [DecidableEq α] (x : α) (l : List α) : Int :=
  findIndexJS (fun y => decide (y = x)) l

/-! ## Naming parser (`getNameParts`) -/

/-- Whether a parsed item is migration-kind or seed-kind (the source checks
`"migration" in item`). -/
inductive ArtifactKind where
  | migration
  | seed
deriving DecidableEq, Repr

/-- The two kind-tagged error families of `getNameParts`, with the error codes
used in the source. -/
inductive NamePartsError where
  /-- Source `MigrationError "b5ad2d"`: name must start with a valid epoch time. -/
  | migrationInvalidTimestamp
  /-- Source `SeedError "20f040"`: name must start with a valid epoch time. -/
  | seedInvalidTimestamp
  /-- Source `MigrationError "2a7630"`: name must have a label. -/
  | migrationMissingLabel
  /-- Source `SeedError "7dd89b"`: name must have a label. -/
  | seedMissingLabel
deriving DecidableEq, Repr

/-- Result of `exec` of `/(?<timestamp>^\d+)_(?<label>.+)$/` on `name`: the match exists
exactly when the name is a non-empty digit run, an underscore, and a non-empty
line-terminator-free remainder; the groups are that digit run and remainder.
(`\d+` is effectively the maximal leading digit run: backtracking to a shorter
run fails because the next character is then a digit, not `_`.) -/
def execNamePartsRegex (name : List Char) : Option (List Char × List Char) :=
  let ds := name.takeWhile isDigitChar
  let rest := name.drop ds.length
  if ds.isEmpty then none
  else
    match rest with
    | '_' :: lbl =>
      if lbl.isEmpty then none
      else if lbl.any isNewlineChar then none
      else some (ds, lbl)
    | _ => none

/-- Function `getNameParts` from the utilities module: regex groups, then the
`isNaN(parseInt(timestamp || ""))` check, then the `!label` check. -/
def getNameParts (kind : ArtifactKind) (name : String) :
    Except NamePartsError (Nat × String) :=
  let groups := execNamePartsRegex name.toList
  let tsStr := (groups.map Prod.fst).getD []
  if tsStr.isEmpty then
    -- `parseInt(timestamp || "")` is `NaN` exactly when the group is absent
    -- (a matched group is a non-empty digit run, whose `parseInt` is a number)
    match kind with
    | .migration => .error .migrationInvalidTimestamp
    | .seed => .error .seedInvalidTimestamp
  else
    let lbl := (groups.map Prod.snd).getD []
    if lbl.isEmpty then
      match kind with
      | .migration => .error .migrationMissingLabel
      | .seed => .error .seedMissingLabel
    else .ok (digitsToNat tsStr, String.mk lbl)

/-! ## Name matcher (`doesNameMatch`) -/

/-- Result of `exec` of `/((?<name_ts>^\d*)_)?(?<name_lbl>.*)/` on the query: if the
leading digit run (possibly empty) is immediately followed by `_`, the
optional group participates and `name_lbl` is the rest after that underscore
(truncated at the first line terminator by `.*`); otherwise the optional group
is skipped and `name_lbl` starts at position 0. -/
def execMatchRegex (q : List Char) : Option (List Char) × List Char :=
  let ds := q.takeWhile isDigitChar
  let rest := q.drop ds.length
  match rest with
  | '_' :: after => (some ds, after.takeWhile (fun c => !isNewlineChar c))
  | _ => (none, q.takeWhile (fun c => !isNewlineChar c))

/-- The timestamp loop of `doesNameMatch`, on the reversed query digits and
reversed item timestamp digits: walk from the least-significant end, failing
when the item timestamp runs out or a digit differs. -/
def tsSuffixLoop : List Char → List Char → Bool
  | [], _ => true
  | _ :: _, [] => false
  | a :: as, b :: bs => if a = b then tsSuffixLoop as bs else false

/-- Function `doesNameMatch(name)(item)` from the utilities module, with the item's
`timestamp` and `label` fields passed explicitly (the JS item is a migration
or a seed; only those two fields are read). -/
def doesNameMatch (query : String) (timestamp : Nat) (label : String) : Bool :=
  let groups := execMatchRegex query.toList
  let tsTruthy : Bool := match groups.fst with
    | some ts => !ts.isEmpty
    | none => false
  if tsTruthy && !groups.snd.isEmpty then
    -- labels must match exactly, then compare partial timestamps in reverse
    if String.mk groups.snd ≠ label then false
    else tsSuffixLoop (groups.fst.getD []).reverse (Nat.toDigits 10 timestamp).reverse
  else if !groups.snd.isEmpty then String.mk groups.snd == label
  else false

/-! ## Seed target resolver (`getTargetSeed`) -/

/-- The `for (const seed of seeds.allSeeds) { if (seed.timestamp <= maxTimestamp)
targetSeed = seed; else break; }` loop: the last element of the longest prefix
whose timestamps all fit under the ceiling. -/
def pickTargetSeed (c : Ceiling) : List Seed → Option Seed
  | [] => none
  | s :: rest =>
    if leCeiling s.timestamp c then
      match pickTargetSeed c rest with
      | some t => some t
      | none => some s
    else none

/-- Wrap the loop result the way the source does: `ok(targetSeed)` when one was
found, `ok(NO_SEEDS)` otherwise. -/
def seedOrNoSeeds : Option Seed → SeedTarget
  | some s => .seed s
  | none => .noSeeds

/-- The unapplied migrations as classified by `getMigrations`: the fetched
migrations without an `executedAt` marker, in fetched order. -/
def unappliedMigrations (ms : List Migration) : List Migration :=
  ms.filter (fun m => !m.executedAt)

/-- Function `getTargetSeed` from the utilities module, given the migration
list fetched by `getMigrations` and the seed list fetched by `getSeeds` (the
fetch and parse error paths of those helpers are orthogonal to the claims and
are not modelled). The result is `none` exactly when the call throws: the only
possible throw is the non-null assertion
`allMigrations.at(migrationIdx + 1)!.timestamp` in the concrete-migration
branch. -/
def getTargetSeed (allMigrations : List Migration) (allSeeds : List Seed)
    (migration : Option MigrationRef) (seed : Option SeedRef) :
    Option ResolveOutcome :=
  match seed with
  | some .noSeeds => some (.ok .noSeeds)
  | _ =>
    match migration with
    | some .noMigrations =>
      -- maxTimestamp = allMigrations.at(0)?.timestamp ?? Infinity
      let maxTimestamp : Ceiling :=
        match allMigrations.head? with
        | some m => .fin m.timestamp
        | none => .inf
      match seed with
      | some (.seed s) =>
        if leCeiling s.timestamp maxTimestamp then some (.ok (.seed s))
        else some (.err ("f56b28"))
      | _ => some (.ok (seedOrNoSeeds (pickTargetSeed maxTimestamp allSeeds)))
    | some (.mig m) =>
      let migrationIdx := findIndexJS (fun x => x.name == m.name) allMigrations
      -- maxTimestamp = props.migration === allMigrations.at(-1)
      --   ? Infinity : allMigrations.at(migrationIdx + 1)!.timestamp
      -- The source compares with ===, JS object identity.  The migration
      -- objects of allMigrations are rebuilt from scratch inside this very
      -- call (`{ ...migration, timestamp, label }` in getMigrations), so the
      -- caller's reference is never identical to the freshly built `at(-1)`
      -- object: the identity test is always false at runtime, the Infinity
      -- arm is dead code, and the ceiling is always the non-null-asserted
      -- lookup at migrationIdx + 1.
      let maxTimestamp : Option Ceiling :=
        match atJS allMigrations (migrationIdx + 1) with
        | some next => some (.fin next.timestamp)
        | none => none -- the non-null assertion fails: a TypeError escapes
      match maxTimestamp with
      | none => none
      | some c =>
        match seed with
        | some (.seed s) =>
          if leCeiling s.timestamp c then some (.ok (.seed s))
          else some (.err ("e6f580"))
        | _ => some (.ok (seedOrNoSeeds (pickTargetSeed c allSeeds)))
    | none =>
      -- maxTimestamp = unappliedMigrations.at(0)?.timestamp ?? Infinity
      let maxTimestamp : Ceiling :=
        match (unappliedMigrations allMigrations).head? with
        | some m => .fin m.timestamp
        | none => .inf
      match seed with
      | some (.seed s) =>
        if leCeiling s.timestamp maxTimestamp then some (.ok (.seed s))
        else some (.err ("1d869e"))
      | _ => some (.ok (seedOrNoSeeds (pickTargetSeed maxTimestamp allSeeds)))

/-! ## Rollback target selection of `undo` -/

/-- How the rollback-target section of `undo` exits. -/
inductive UndoOutcome where
  /-- A target was selected; `undo` proceeds to the seed and migration rollback. -/
  | rollback (t : MigrationRef)
  /-- No name was given and nothing is applied: success report, early return. -/
  | noop
  /-- A name was given and no target was found: `exitFailure` (codes `7eb0e2`
  or `7263fb`). -/
  | notFound
deriving DecidableEq, Repr

/-- The `else` branch of undo's target selection, i.e. its behaviour when the
`if (name)` test is falsy: the name argument is undefined or the empty string.
(The later `if (!migration) { if (name) ... else feed.succeed(...) }` guard
tests the same falsy name, so the whole selection behaves uniformly as
"no name given".) -/
def undoSelectNoName (appliedMigrations : List Migration) : UndoOutcome :=
  if appliedMigrations.length > 1 then
    match atJS appliedMigrations (-2) with
    | some prev => .rollback (.mig prev)
    | none => .notFound
  else if appliedMigrations.length = 1 then .rollback .noMigrations
  else .noop -- "No migrations to rollback." success

/-- The target-selection logic of `undo` (`migrate.ts`), over the applied
migrations in fetched (ascending) order and the optional name argument.
`if (name)` tests JS truthiness, so an empty-string name takes the no-name
branch exactly like an undefined one.  `indexOf` uses object identity; the
element searched for is the very object `find?` returned from the same array,
and an earlier structurally-equal element would itself have been found first
by `find?`, so the structural model of `indexOf` coincides with reference
identity here. -/
def undoSelectTarget (appliedMigrations : List Migration) :
    Option String → UndoOutcome
  | some name =>
    if name.isEmpty then undoSelectNoName appliedMigrations
    else
      match appliedMigrations.find? (fun m => doesNameMatch name m.timestamp m.label) with
      | none => .notFound -- migration stays undefined, exitFailure "7263fb"
      | some namedMigration =>
        let namedMigrationIdx := indexOfJS namedMigration appliedMigrations
        if namedMigrationIdx = -1 then .notFound -- exitFailure "7eb0e2"
        else if namedMigrationIdx = 0 then .rollback .noMigrations
        else
          match atJS appliedMigrations (namedMigrationIdx - 1) with
          | some prev => .rollback (.mig prev)
          | none => .notFound -- `!migration` check, exitFailure "7263fb"
  | none => undoSelectNoName appliedMigrations

/-! ## Event-loop model of the rollback ordering in `undo`/`undoAll`

After `undo` (or `undoAll`) has resolved its rollback target and seed target,
its tail performs, in source order:

    (await getTargetSeed({ migration }))
      .map((targetSeed) =>
        getSeeder().map(async (seeder) => {
          const { error, results } = await seeder.seedTo(...); ...
        }))
      .mapErr(...);
    ...
    const { error, results } = await migrator.migrateTo(...);

The async closure is invoked synchronously by `Result.map` and runs up to its
first `await`, starting `seeder.seedTo`; the promise it returns is wrapped in
a `Result` that is discarded, never awaited.  The main body then continues
synchronously (spinner bookkeeping only) and calls `migrator.migrateTo`,
awaiting only that.  The model below captures this with two cooperative tasks
under run-to-completion event-loop semantics: promise settlements are
delivered only while the main task is suspended. -/

/-- Runner events observable in the tail of `undo`/`undoAll`: the start and the
settlement of `seeder.seedTo(...)` and of `migrator.migrateTo(...)`. -/
inductive RunnerEv where
  | seedToStart
  | seedToDone
  | migrateToStart
  | migrateToDone
deriving DecidableEq, Repr

/-- Program counter of the main `undo`/`undoAll` body after target resolution. -/
inductive MainPC where
  /-- About to run the `.map(...)` chain that spawns the seed rollback. -/
  | atSeedSection
  /-- About to call `migrator.migrateTo(...)`. -/
  | atMigrateCall
  /-- Suspended on `await migrator.migrateTo(...)`. -/
  | awaitingMigrate
  | finished
deriving DecidableEq, Repr

/-- Program counter of the floating async closure around `seeder.seedTo`. -/
inductive SeedTaskPC where
  | notSpawned
  /-- Suspended on `await seeder.seedTo(...)`. -/
  | awaitingSeed
  | finished
deriving DecidableEq, Repr

/-- State of one `undo`/`undoAll` invocation's tail: the two task counters and
the trace of runner events so far. -/
structure UndoAsyncState where
  main : MainPC
  seedTask : SeedTaskPC
  trace : List RunnerEv
deriving DecidableEq, Repr

/-- Initial state: target resolved, nothing started. -/
def undoInit : UndoAsyncState := ⟨.atSeedSection, .notSpawned, []⟩

/-- One scheduler step.  The two synchronous steps of the main body come
first; the runner completions (`seedDone`, `migrateDone`) are delivered by the
event loop only once the main body has suspended, and in either order. -/
inductive UndoStep : UndoAsyncState → UndoAsyncState → Prop where
  /-- The async closure runs synchronously up to `await seeder.seedTo(...)`;
  its promise is not awaited by the main body. -/
  | spawnSeed (tr : List RunnerEv) :
      UndoStep ⟨.atSeedSection, .notSpawned, tr⟩
        ⟨.atMigrateCall, .awaitingSeed, tr ++ [.seedToStart]⟩
  /-- The main body synchronously calls `migrator.migrateTo(...)` and awaits
  it, regardless of the state of the seed task. -/
  | callMigrate (st : SeedTaskPC) (tr : List RunnerEv) :
      UndoStep ⟨.atMigrateCall, st, tr⟩
        ⟨.awaitingMigrate, st, tr ++ [.migrateToStart]⟩
  /-- `seeder.seedTo` settles and the closure resumes; only at a yield point
  of the main body. -/
  | seedDone (mp : MainPC) (tr : List RunnerEv)
      (h : mp = .awaitingMigrate ∨ mp = .finished) :
      UndoStep ⟨mp, .awaitingSeed, tr⟩ ⟨mp, .finished, tr ++ [.seedToDone]⟩
  /-- `migrator.migrateTo` settles and the main body resumes. -/
  | migrateDone (st : SeedTaskPC) (tr : List RunnerEv) :
      UndoStep ⟨.awaitingMigrate, st, tr⟩ ⟨.finished, st, tr ++ [.migrateToDone]⟩

/-- Reachable states of the modelled `undo`/`undoAll` tail. -/
inductive UndoReach : UndoAsyncState → Prop where
  | init : UndoReach undoInit
  | step {s t : UndoAsyncState} : UndoReach s → UndoStep s t → UndoReach t

/-! ## Spec-side definitions (stated from the spec's words, for comparison) -/

/-- Spec 4.4, NoMigrations case: the reachable ceiling is the timestamp of the
very first migration in the full migration list, or infinity if there are no
migrations at all. -/
def specCeilingNoMigrations (ms : List Migration) : Ceiling :=
  match ms.head? with
  | some m => .fin m.timestamp
  | none => .inf

/-- Spec 4.4, concrete-migration case, for the migration at position `i`: the
ceiling is the timestamp of the next migration after the given one in the full
migration list, or infinity if the given migration is the last one. -/
def specCeilingAfterIdx (ms : List Migration) (i : Nat) : Ceiling :=
  match ms[i + 1]? with
  | some m => .fin m.timestamp
  | none => .inf

/-- Spec 4.4, omitted-migration case: the ceiling is the timestamp of the
earliest unapplied migration, or infinity if every migration is applied (or
there are none). -/
def specCeilingUnapplied (ms : List Migration) : Ceiling :=
  match (ms.filter (fun m => !m.executedAt)).head? with
  | some m => .fin m.timestamp
  | none => .inf

/-- Spec: the last seed (in ascending order) whose timestamp is at most the
ceiling; `none` when no seed qualifies. -/
def specLastSeedLE (ss : List Seed) (c : Ceiling) : Option Seed :=
  (ss.filter (fun s => leCeiling s.timestamp c)).getLast?

/-- Position of the first applied artifact the query matches, if any. -/
def firstMatchIdx (name : String) : List Migration → Option Nat
  | [] => none
  | m :: rest =>
    if doesNameMatch name m.timestamp m.label then some 0
    else (firstMatchIdx name rest).map (· + 1)

/-- The no-name selection rule of the amended claim C10: zero applied
migrations is a no-op success, exactly one targets the sentinel, and more than
one targets the second-to-last. -/
def specUndoNoName (applied : List Migration) : UndoOutcome :=
  match applied with
  | [] => .noop
  | [_] => .rollback .noMigrations
  | _ :: _ :: _ =>
    match applied[applied.length - 2]? with
    | some prev => .rollback (.mig prev)
    | none => .notFound

/-- The `undo` target selection rule stated from the amended claim C10's
words: a non-empty given name whose first match is the earliest applied
artifact targets the sentinel; one whose first match is a later artifact
targets the one immediately before it; a non-empty unmatched name fails; an
empty-string name, like an absent one, follows the no-name rule. -/
def specUndoTarget (applied : List Migration) : Option String → UndoOutcome
  | some name =>
    if name.isEmpty then specUndoNoName applied
    else
      match firstMatchIdx name applied with
      | none => .notFound
      | some 0 => .rollback .noMigrations
      | some (i + 1) =>
        match applied[i]? with
        | some prev => .rollback (.mig prev)
        | none => .notFound
  | none => specUndoNoName applied

/-- The seed list is ascending by timestamp (the repository invariant for
fetched artifact lists, spec section 3). -/
def seedsAscending (ss : List Seed) : Prop :=
  ss.Pairwise (fun a b => a.timestamp ≤ b.timestamp)

/-- The migration list is ascending by timestamp. -/
def migrationsAscending (ms : List Migration) : Prop :=
  ms.Pairwise (fun a b => a.timestamp ≤ b.timestamp)

/-- The migration names are pairwise distinct (the repository invariant: names
are file names of one folder). -/
def namesNodup (ms : List Migration) : Prop :=
  (ms.map (fun m => m.name)).Nodup

instance (ss : List Seed) : Decidable (seedsAscending ss) := by
  unfold seedsAscending
  infer_instance

instance (ms : List Migration) : Decidable (migrationsAscending ms) := by
  unfold migrationsAscending
  infer_instance

instance (ms : List Migration) : Decidable (namesNodup ms) := by
  unfold namesNodup
  infer_instance

/-! ## Concrete artifacts used in witnesses and counterexamples (the spec's
running example: migrations 1000_a, 2000_b and seeds 500_x, 1500_y, 2500_z) -/

/-- Applied migration 1000_a. -/
def migA : Migration := ⟨"1000_a", 1000, "a", true⟩

/-- Applied migration 2000_b. -/
def migB : Migration := ⟨"2000_b", 2000, "b", true⟩

/-- The migration 2000_b in its unapplied state. -/
def migB0 : Migration := ⟨"2000_b", 2000, "b", false⟩

/-- A migration named 3000_c, used as a reference whose name is absent from
the witness lists. -/
def migC : Migration := ⟨"3000_c", 3000, "c", false⟩

/-- Seed 500_x. -/
def seedX : Seed := ⟨"500_x", 500, "x", true⟩

/-- Seed 1500_y. -/
def seedY : Seed := ⟨"1500_y", 1500, "y", true⟩

/-- Seed 2500_z. -/
def seedZ : Seed := ⟨"2500_z", 2500, "z", true⟩

/-! ## Helper lemmas -/

theorem tsSuffixLoop_eq_isPrefixOf (a b : List Char) :
    tsSuffixLoop a b = a.isPrefixOf b := by
  induction a generalizing b with
  | nil => cases b <;> rfl
  | cons x xs ih =>
    cases b with
    | nil => rfl
    | cons y ys =>
      simp only [tsSuffixLoop, List.isPrefixOf, ih]
      by_cases h : x = y
      · simp [h]
      · simp [h]

theorem tsSuffixLoop_reverse (a b : List Char) :
    tsSuffixLoop a.reverse b.reverse = a.isSuffixOf b := by
  rw [tsSuffixLoop_eq_isPrefixOf]; rfl

theorem takeWhile_all {α : Type} {p : α → Bool} {l : List α}
    (h : ∀ a ∈ l, p a = true) : l.takeWhile p = l := by
  induction l with
  | nil => rfl
  | cons a t ih =>
    have h1 := h a (List.mem_cons_self a t)
    have h2 := ih fun x hx => h x (List.mem_cons_of_mem a hx)
    simp [List.takeWhile_cons, h1, h2]

theorem takeWhile_append_cons {α : Type} {p : α → Bool} {l : List α} {c : α}
    (r : List α) (hl : ∀ a ∈ l, p a = true) (hc : p c = false) :
    (l ++ c :: r).takeWhile p = l := by
  induction l with
  | nil => simp [List.takeWhile_cons, hc]
  | cons a t ih =>
    have h1 := hl a (List.mem_cons_self a t)
    have h2 := ih fun x hx => hl x (List.mem_cons_of_mem a hx)
    simp [List.takeWhile_cons, h1, h2]

theorem getLast?_cons_getD {α : Type} (a : α) (l : List α) :
    (a :: l).getLast? = some (l.getLast?.getD a) := by
  induction l generalizing a with
  | nil => rfl
  | cons b t ih => rw [List.getLast?_cons_cons, ih b]; simp

theorem leCeiling_false_of_le {c : Ceiling} {t u : Nat}
    (h : leCeiling t c = false) (htu : t ≤ u) : leCeiling u c = false := by
  cases c with
  | fin m =>
    simp only [leCeiling, decide_eq_false_iff_not] at h ⊢
    omega
  | inf => simp [leCeiling] at h

theorem pickTargetSeed_eq_specLastSeedLE {c : Ceiling} {ss : List Seed}
    (h : seedsAscending ss) : pickTargetSeed c ss = specLastSeedLE ss c := by
  induction ss with
  | nil => rfl
  | cons s rest ih =>
    rw [seedsAscending, List.pairwise_cons] at h
    obtain ⟨hs, hrest⟩ := h
    have ihr := ih hrest
    cases hc : leCeiling s.timestamp c with
    | true =>
      rw [pickTargetSeed, if_pos hc, ihr, specLastSeedLE, specLastSeedLE]
      have hfc : (s :: rest).filter (fun x => leCeiling x.timestamp c) =
          s :: rest.filter (fun x => leCeiling x.timestamp c) := by
        simp [List.filter_cons, hc]
      rw [hfc, getLast?_cons_getD]
      cases hfr : (rest.filter fun x => leCeiling x.timestamp c).getLast? <;>
        simp [hfr]
    | false =>
      have hrf : rest.filter (fun x => leCeiling x.timestamp c) = [] := by
        rw [List.filter_eq_nil_iff]
        intro x hx
        simp [leCeiling_false_of_le hc (hs x hx)]
      rw [pickTargetSeed, if_neg (by simp [hc]), specLastSeedLE]
      simp [List.filter_cons, hc, hrf]

theorem atJS_ofNat {α : Type} (l : List α) (n : Nat) : atJS l (n : Int) = l[n]? := by
  have h1 : ¬((n : Int) < 0) := by omega
  have h2 : (0 : Int) ≤ (n : Int) := by omega
  simp [atJS, h1, h2]

theorem atJS_neg_one {α : Type} (l : List α) : atJS l (-1) = l.getLast? := by
  cases l with
  | nil => rfl
  | cons a t =>
    rw [List.getLast?_eq_getElem?]
    have h0 : (0 : Int) ≤ (a :: t).length + (-1) := by
      simp only [List.length_cons]
      omega
    simp only [atJS, if_pos (by norm_num : (-1 : Int) < 0), if_pos h0]
    congr 1
    simp only [List.length_cons]
    omega

theorem atJS_neg_two {α : Type} (l : List α) (h : 2 ≤ l.length) :
    atJS l (-2) = l[l.length - 2]? := by
  have h0 : (0 : Int) ≤ l.length + (-2) := by omega
  simp only [atJS, if_pos (by norm_num : (-2 : Int) < 0), if_pos h0]
  congr 1
  omega

theorem findIndexJS_eq_of_first {α : Type} {p : α → Bool} {l : List α} {n : Nat}
    {m : α} (hm : l[n]? = some m) (hpm : p m = true)
    (hfirst : ∀ j x, j < n → l[j]? = some x → p x = false) :
    findIndexJS p l = (n : Int) := by
  induction l generalizing n with
  | nil => simp at hm
  | cons a t ih =>
    cases n with
    | zero =>
      simp only [List.getElem?_cons_zero, Option.some_inj] at hm
      subst hm
      simp [findIndexJS, hpm]
    | succ k =>
      have ha : p a = false := hfirst 0 a (Nat.succ_pos k) (by simp)
      have hm' : t[k]? = some m := by simpa using hm
      have hfirst' : ∀ j x, j < k → t[j]? = some x → p x = false := fun j x hj hx =>
        hfirst (j + 1) x (Nat.succ_lt_succ hj) (by simpa using hx)
      have hrec := ih hm' hfirst'
      have hk : ((k : Int)) ≠ -1 := by omega
      simp only [findIndexJS, ha, Bool.false_eq_true, if_false, hrec, if_neg hk]
      omega

theorem name_ne_of_namesNodup {ms : List Migration} (h : namesNodup ms)
    {i j : Nat} {a b : Migration} (hij : i ≠ j) (ha : ms[i]? = some a)
    (hb : ms[j]? = some b) : a.name ≠ b.name := by
  intro heq
  apply hij
  have hi : i < ms.length := (List.getElem?_eq_some.mp ha).1
  have ha' : (ms.map (fun m => m.name))[i]? = some a.name := by
    rw [List.getElem?_map, ha]; rfl
  have hb' : (ms.map (fun m => m.name))[j]? = some b.name := by
    rw [List.getElem?_map, hb]; rfl
  exact List.getElem?_inj (by simpa using hi) h (by rw [ha', hb', heq])

theorem findIndexJS_neg_one {α : Type} {p : α → Bool} {l : List α}
    (h : ∀ x ∈ l, p x = false) : findIndexJS p l = -1 := by
  induction l with
  | nil => rfl
  | cons a t ih =>
    have ha := h a (List.mem_cons_self a t)
    have ht := ih fun x hx => h x (List.mem_cons_of_mem a hx)
    simp [findIndexJS, ha, ht]

/-- In a migration list with pairwise-distinct names, the name-based
`findIndex` of the concrete-migration branch locates exactly the position of
the given migration. -/
theorem migBranchFindIndex_eq {ms : List Migration} {m : Migration} {i : Nat}
    (hm : ms[i]? = some m) (hnd : namesNodup ms) :
    findIndexJS (fun x => x.name == m.name) ms = (i : Int) := by
  apply findIndexJS_eq_of_first hm
  · simp
  · intro j x hj hx
    have := name_ne_of_namesNodup hnd (Nat.ne_of_lt hj) hx hm
    simp [this]

/-- The ceiling computation of the concrete-migration branch of
`getTargetSeed`, for a migration that occurs at a non-final position `i` of a
migration list with pairwise-distinct names: the lookup at `migrationIdx + 1`
succeeds and produces the next migration's timestamp, which is the
next-migration ceiling of the spec. -/
theorem migBranchCeiling_eq_of_lt {ms : List Migration} {m : Migration}
    {i : Nat} (hm : ms[i]? = some m) (hnd : namesNodup ms)
    (hi1 : i + 1 < ms.length) :
    (match atJS ms (findIndexJS (fun x => x.name == m.name) ms + 1) with
     | some next => some (Ceiling.fin next.timestamp)
     | none => (none : Option Ceiling)) = some (specCeilingAfterIdx ms i) := by
  obtain ⟨next, hnext⟩ : ∃ x, ms[i + 1]? = some x :=
    ⟨ms[i + 1], List.getElem?_eq_some.mpr ⟨hi1, rfl⟩⟩
  have hat : atJS ms (findIndexJS (fun x => x.name == m.name) ms + 1) = some next := by
    rw [migBranchFindIndex_eq hm hnd]
    have : ((i : Int) + 1) = ((i + 1 : Nat) : Int) := by omega
    rw [this, atJS_ofNat, hnext]
  rw [hat, specCeilingAfterIdx, hnext]

/-- The ceiling computation of the concrete-migration branch of
`getTargetSeed`, for a migration that occurs at the final position of a
migration list with pairwise-distinct names: the lookup at
`migrationIdx + 1` is out of range, so the non-null assertion is evaluated on
a missing element and the branch throws. -/
theorem migBranchCeiling_none_of_last {ms : List Migration} {m : Migration}
    {i : Nat} (hm : ms[i]? = some m) (hnd : namesNodup ms)
    (hi1 : i + 1 = ms.length) :
    (match atJS ms (findIndexJS (fun x => x.name == m.name) ms + 1) with
     | some next => some (Ceiling.fin next.timestamp)
     | none => (none : Option Ceiling)) = none := by
  have hat : atJS ms (findIndexJS (fun x => x.name == m.name) ms + 1) = none := by
    rw [migBranchFindIndex_eq hm hnd]
    have : ((i : Int) + 1) = ((i + 1 : Nat) : Int) := by omega
    rw [this, atJS_ofNat, List.getElem?_eq_none]
    omega
  rw [hat]

/-! ## Claim theorems -/

/-- Claim C3: with the `NoMigrations` sentinel reference and no requested
seed, `getTargetSeed` uses the first-migration-or-infinity ceiling and returns
the last seed (in ascending order) whose timestamp is at most that ceiling, or
`NoSeeds` when no seed qualifies, for every ascending migration list and
ascending seed list. -/
theorem claim_c3 (ms : List Migration) (ss : List Seed)
    (hasc : migrationsAscending ms) (hss : seedsAscending ss) :
    getTargetSeed ms ss (some .noMigrations) none =
      some (.ok (seedOrNoSeeds (specLastSeedLE ss (specCeilingNoMigrations ms)))) := by
  simp only [getTargetSeed]
  rw [pickTargetSeed_eq_specLastSeedLE hss]
  rfl

/-- Claim C4: with the migration reference omitted and no requested seed,
`getTargetSeed` uses the earliest-unapplied-migration-or-infinity ceiling and
returns the last seed (in ascending order) whose timestamp is at most that
ceiling, or `NoSeeds` when no seed qualifies, for every database state (any
applied/unapplied flags on the fetched migrations). -/
theorem claim_c4 (ms : List Migration) (ss : List Seed)
    (hasc : migrationsAscending ms) (hss : seedsAscending ss) :
    getTargetSeed ms ss none none =
      some (.ok (seedOrNoSeeds (specLastSeedLE ss (specCeilingUnapplied ms)))) := by
  simp only [getTargetSeed]
  rw [pickTargetSeed_eq_specLastSeedLE hss]
  rfl

/-- Claim C7, counterexample: the name `123_` (digits, underscore, empty
label) is rejected by `getNameParts` with the kind-tagged missing/invalid
timestamp error (source code `b5ad2d`), not with the missing-label error
(source code `2a7630`) that the claim assigns to it: the name regex requires a
non-empty label, so on `123_` it does not match at all, both groups are
undefined, and the `isNaN(parseInt(...))` check fires first. -/
theorem claim_c7_counterexample :
    getNameParts .migration ("123_") = .error .migrationInvalidTimestamp ∧
    NamePartsError.migrationInvalidTimestamp ≠ NamePartsError.migrationMissingLabel :=
  ⟨rfl, by decide⟩

/-- Claim C7, amended: `getNameParts` rejects `abc_foo` and `123_` for both
artifact kinds, but both failures carry the kind-tagged missing/invalid
timestamp error; the missing-label error branch is not reached for `123_`. -/
theorem claim_c7_amended :
    getNameParts .migration ("abc_foo") = .error .migrationInvalidTimestamp ∧
    getNameParts .seed ("abc_foo") = .error .seedInvalidTimestamp ∧
    getNameParts .migration ("123_") = .error .migrationInvalidTimestamp ∧
    getNameParts .seed ("123_") = .error .seedInvalidTimestamp :=
  ⟨rfl, rfl, rfl, rfl⟩

/-- Claim C9, counterexample: the matcher does not return `false` for every
query beginning with an underscore, and label-only matches are not limited to
queries without leading digits: `_foo` matches an artifact labelled `foo`
(the optional regex group consumes the underscore with an empty digit run,
leaving the falsy `name_ts = ""` and `name_lbl = "foo"`), and the digit-only
query `123` matches an artifact labelled `123`. -/
theorem claim_c9_counterexample :
    doesNameMatch ("_foo") 42 ("foo") = true ∧
    doesNameMatch ("123") 42 ("123") = true :=
  ⟨by decide, by decide⟩

/-- Claim C6, counterexample: on an empty fetched migration list with a
concrete migration reference, the concrete-migration branch of `getTargetSeed`
evaluates the non-null-asserted lookup `allMigrations.at(migrationIdx + 1)!`
on a missing element (`at` returns `undefined`), so the call throws a
`TypeError` (modelled by `none`) instead of returning an explicit ok/err
result. -/
theorem claim_c6_counterexample :
    getTargetSeed [] [] (some (.mig migB0)) none = none := by decide

theorem exists_some_ite {β : Type} {c : Prop} [Decidable c] (x y : β) :
    ∃ r, (if c then some x else some y) = some r := by
  by_cases h : c <;> simp [h]

/-- Claim C1 describes the intended behaviour — the source even contains the
`Infinity` arm for a last-position reference — but the code is wrong: the
identity test guarding that arm never holds across the internal re-fetch, so
at the spec's own P7 input (migrations 1000_a and 2000_b, reference 2000_b as
the last element, no requested seed) the non-null-asserted lookup dereferences
`undefined` and the call throws a TypeError (modelled by `none`) instead of
returning seed 2500_z under the infinite ceiling. -/
theorem claim_c1_code_bug :
    getTargetSeed [migA, migB] [seedX, seedY, seedZ] (some (.mig migB)) none =
      none ∧
    getTargetSeed [migA, migB] [seedX, seedY, seedZ] (some (.mig migB)) none ≠
      some (.ok (.seed seedZ)) :=
  ⟨by decide, by decide⟩

/-- Claim C5 describes the intended requested-seed contract (the error arms
with the three distinct codes are in the source), but for a reference at the
last position the code throws before the requested-seed check ever runs: with
migrations 1000_a and 2000_b, reference 2000_b and requested seed 1500_y —
which the claim admits, its timestamp being under the infinite ceiling — the
call throws a TypeError (modelled by `none`) instead of returning the seed or
a `SeedError`. -/
theorem claim_c5_code_bug :
    getTargetSeed [migA, migB] [seedX, seedY, seedZ] (some (.mig migB))
      (some (.seed seedY)) = none ∧
    getTargetSeed [migA, migB] [seedX, seedY, seedZ] (some (.mig migB))
      (some (.seed seedY)) ≠ some (.ok (.seed seedY)) :=
  ⟨by decide, by decide⟩

/-- Claim C6, amended: for a requested-seed argument other than the `NoSeeds`
sentinel (which short-circuits to ok before any migration is inspected), and a
migration list with pairwise-distinct names holding a migration at a non-final
position `i` and the migration at the final position `k` (so at least two
migrations), `getTargetSeed` returns an explicit ok/err result when the
migration reference is omitted, is the `NoMigrations` sentinel, is the
concrete migration at the non-final position, or is a concrete migration
whose name does not occur in the list at all; but when the concrete reference
occurs at the final position the non-null-asserted lookup is evaluated on a
missing element and a `TypeError` escapes — as it also does on an empty
migration list (the counterexample). -/
theorem claim_c6_amended (ms : List Migration) (ss : List Seed)
    (sref : Option SeedRef) (m mLast mAbsent : Migration) (i k : Nat)
    (hnd : namesNodup ms)
    (hm : ms[i]? = some m) (hi1 : i + 1 < ms.length)
    (hk : ms[k]? = some mLast) (hk1 : k + 1 = ms.length)
    (habs : mAbsent.name ∉ ms.map (fun x => x.name))
    (hsref : sref ≠ some SeedRef.noSeeds) :
    (∃ r, getTargetSeed ms ss (some (.mig m)) sref = some r) ∧
    (∃ r, getTargetSeed ms ss (some (.mig mAbsent)) sref = some r) ∧
    (∃ r, getTargetSeed ms ss (some .noMigrations) sref = some r) ∧
    (∃ r, getTargetSeed ms ss none sref = some r) ∧
    getTargetSeed ms ss (some (.mig mLast)) sref = none := by
  have hne : ms ≠ [] := by
    intro h
    rw [h] at hk1
    simp at hk1
  refine ⟨?_, ?_, ?_, ?_, ?_⟩
  · rcases sref with _ | sr
    · simp only [getTargetSeed]
      rw [migBranchCeiling_eq_of_lt hm hnd hi1]
      exact ⟨_, rfl⟩
    · rcases sr with _ | s
      · exact absurd rfl hsref
      · simp only [getTargetSeed]
        rw [migBranchCeiling_eq_of_lt hm hnd hi1]
        exact exists_some_ite _ _
  · have hfind : findIndexJS (fun x => x.name == mAbsent.name) ms = -1 := by
      apply findIndexJS_neg_one
      intro x hx
      have : x.name ≠ mAbsent.name := by
        intro hxe
        exact habs (hxe ▸ List.mem_map_of_mem (fun y => y.name) hx)
      simp [this]
    obtain ⟨h0, hh0⟩ : ∃ x, ms[0]? = some x := by
      cases ms with
      | nil => exact absurd rfl hne
      | cons a t => exact ⟨a, by simp⟩
    have hat : atJS ms (findIndexJS (fun x => x.name == mAbsent.name) ms + 1) =
        some h0 := by
      rw [hfind, show (-1 : Int) + 1 = ((0 : Nat) : Int) by norm_num,
        atJS_ofNat, hh0]
    rcases sref with _ | sr
    · simp only [getTargetSeed]
      rw [hat]
      exact ⟨_, rfl⟩
    · rcases sr with _ | s
      · exact absurd rfl hsref
      · simp only [getTargetSeed]
        rw [hat]
        exact exists_some_ite _ _
  · rcases sref with _ | sr
    · exact ⟨_, rfl⟩
    · rcases sr with _ | s
      · exact absurd rfl hsref
      · exact exists_some_ite _ _
  · rcases sref with _ | sr
    · exact ⟨_, rfl⟩
    · rcases sr with _ | s
      · exact absurd rfl hsref
      · exact exists_some_ite _ _
  · rcases sref with _ | sr
    · simp only [getTargetSeed]
      rw [migBranchCeiling_none_of_last hk hnd hk1]
    · rcases sr with _ | s
      · exact absurd rfl hsref
      · simp only [getTargetSeed]
        rw [migBranchCeiling_none_of_last hk hnd hk1]

/-- Claim C8: for a query consisting of a non-empty digit run, an underscore
and a non-empty (line-terminator-free) label, the matcher returns true exactly
when the query label equals the artifact label and the query digits equal the
trailing digits of the artifact's decimal timestamp, compared digit-by-digit
from the rightmost position; a query prefix longer than the timestamp, or any
differing compared digit, yields no match. -/
theorem claim_c8 (ds lbl : List Char) (ts : Nat) (itemLabel : String)
    (hd : ds ≠ []) (hdall : ∀ c ∈ ds, isDigitChar c = true)
    (hl : lbl ≠ []) (hln : ∀ c ∈ lbl, isNewlineChar c = false) :
    doesNameMatch (String.mk (ds ++ '_' :: lbl)) ts itemLabel =
      (String.mk lbl == itemLabel && List.isSuffixOf ds (Nat.toDigits 10 ts)) := by
  have htake : (ds ++ '_' :: lbl).takeWhile isDigitChar = ds :=
    takeWhile_append_cons lbl hdall (by decide)
  have hltake : lbl.takeWhile (fun c => !isNewlineChar c) = lbl :=
    takeWhile_all fun c hc => by simp [hln c hc]
  have hexec : execMatchRegex (ds ++ '_' :: lbl) = (some ds, lbl) := by
    simp only [execMatchRegex, htake, List.drop_left, hltake]
  have hstr : (String.mk (ds ++ '_' :: lbl)).toList = ds ++ '_' :: lbl := rfl
  have hdse : ds.isEmpty = false := by
    cases ds with
    | nil => exact absurd rfl hd
    | cons a t => rfl
  have hlble : lbl.isEmpty = false := by
    cases lbl with
    | nil => exact absurd rfl hl
    | cons a t => rfl
  simp only [doesNameMatch, hstr, hexec, hdse, hlble]
  by_cases heq : String.mk lbl = itemLabel
  · simp [heq, tsSuffixLoop_reverse]
  · simp [heq, beq_iff_eq]

/-- When the maximal leading digit run of the query is not immediately
followed by an underscore, the optional group of the matcher regex does not
participate and `name_lbl` is the whole query, truncated at the first line
terminator. -/
theorem execMatchRegex_no_underscore {cs : List Char}
    (hnu : (cs.drop (cs.takeWhile isDigitChar).length).head? ≠ some '_') :
    execMatchRegex cs = (none, cs.takeWhile fun c => !isNewlineChar c) := by
  simp only [execMatchRegex]
  cases hrest : cs.drop (cs.takeWhile isDigitChar).length with
  | nil => rfl
  | cons c tail =>
    have hc : c ≠ '_' := by
      intro h
      apply hnu
      rw [hrest, h]
      rfl
    split
    · rename_i heq
      rw [List.cons.injEq] at heq
      exact absurd heq.1 hc
    · rfl

/-- Claim C9, amended: the matcher returns false for every artifact when the
query is empty or when its optional digits-plus-underscore prefix is followed
by nothing (so the remaining label part is empty, e.g. `_` or `123_`); a query
beginning with an underscore and a non-empty remainder is instead treated as a
label-only query on the part after that underscore, matching exactly the
artifacts whose label equals that part; and a non-empty (line-terminator-free)
query whose maximal leading digit run is not immediately followed by an
underscore — in particular a pure-digit or digit-led query — is treated as a
label-only query on the entire query, matching exactly the artifacts whose
label equals it. -/
theorem claim_c9_amended (ds rest cs : List Char) (ts : Nat) (lbl : String)
    (hdall : ∀ c ∈ ds, isDigitChar c = true)
    (hr : rest ≠ []) (hrn : ∀ c ∈ rest, isNewlineChar c = false)
    (hq : cs ≠ []) (hqn : ∀ c ∈ cs, isNewlineChar c = false)
    (hnu : (cs.drop (cs.takeWhile isDigitChar).length).head? ≠ some '_') :
    doesNameMatch ("") ts lbl = false ∧
    doesNameMatch (String.mk (ds ++ ['_'])) ts lbl = false ∧
    doesNameMatch (String.mk ('_' :: rest)) ts lbl = (String.mk rest == lbl) ∧
    doesNameMatch (String.mk cs) ts lbl = (String.mk cs == lbl) := by
  refine ⟨rfl, ?_, ?_, ?_⟩
  · have htake : (ds ++ ['_']).takeWhile isDigitChar = ds :=
      takeWhile_append_cons [] hdall (by decide)
    have hexec : execMatchRegex (ds ++ ['_']) = (some ds, []) := by
      simp only [execMatchRegex, htake, List.drop_left]
      rfl
    have hstr : (String.mk (ds ++ ['_'])).toList = ds ++ ['_'] := rfl
    simp [doesNameMatch, hstr, hexec]
  · have hexec : execMatchRegex ('_' :: rest) =
        (some [], rest.takeWhile (fun c => !isNewlineChar c)) := rfl
    have hrtake : rest.takeWhile (fun c => !isNewlineChar c) = rest :=
      takeWhile_all fun c hc => by simp [hrn c hc]
    have hre : rest.isEmpty = false := by
      cases rest with
      | nil => exact absurd rfl hr
      | cons a t => rfl
    have hstr : (String.mk ('_' :: rest)).toList = '_' :: rest := rfl
    simp [doesNameMatch, hstr, hexec, hrtake, hre]
  · have hexec := execMatchRegex_no_underscore hnu
    have hqtake : cs.takeWhile (fun c => !isNewlineChar c) = cs :=
      takeWhile_all fun c hc => by simp [hqn c hc]
    have hqe : cs.isEmpty = false := by
      cases cs with
      | nil => exact absurd rfl hq
      | cons a t => rfl
    have hstr : (String.mk cs).toList = cs := rfl
    simp [doesNameMatch, hstr, hexec, hqtake, hqe]

theorem firstMatchIdx_eq_none {nm : String} {l : List Migration}
    (h : ∀ x ∈ l, doesNameMatch nm x.timestamp x.label = false) :
    firstMatchIdx nm l = none := by
  induction l with
  | nil => rfl
  | cons a t ih =>
    have ha := h a (List.mem_cons_self a t)
    have ht := ih fun x hx => h x (List.mem_cons_of_mem a hx)
    simp [firstMatchIdx, ha, ht]

theorem firstMatch_spec {nm : String} {l : List Migration} {found : Migration}
    (hf : l.find? (fun m => doesNameMatch nm m.timestamp m.label) = some found) :
    ∃ k, firstMatchIdx nm l = some k ∧ l[k]? = some found ∧
      ∀ j x, j < k → l[j]? = some x →
        doesNameMatch nm x.timestamp x.label = false := by
  induction l with
  | nil => simp at hf
  | cons a t ih =>
    cases hpa : doesNameMatch nm a.timestamp a.label with
    | true =>
      simp only [List.find?_cons, hpa, Option.some_inj] at hf
      refine ⟨0, by simp [firstMatchIdx, hpa], by simp [hf], ?_⟩
      intro j x hj
      exact absurd hj (Nat.not_lt_zero j)
    | false =>
      simp only [List.find?_cons, hpa] at hf
      obtain ⟨k, h1, h2, h3⟩ := ih hf
      refine ⟨k + 1, ?_, by simpa using h2, ?_⟩
      · simp [firstMatchIdx, hpa, h1]
      · intro j x hj hx
        cases j with
        | zero =>
          simp only [List.getElem?_cons_zero, Option.some_inj] at hx
          exact hx ▸ hpa
        | succ j2 => exact h3 j2 x (by omega) (by simpa using hx)

/-- The no-name selection of the model and the no-name rule of the amended
claim agree on every applied list. -/
theorem undoNoName_eq_spec (applied : List Migration) :
    undoSelectNoName applied = specUndoNoName applied := by
  cases applied with
  | nil => rfl
  | cons a t =>
    cases t with
    | nil => rfl
    | cons b u =>
      have hlen : 2 ≤ (a :: b :: u).length := by
        simp only [List.length_cons]
        omega
      have hgt : (a :: b :: u).length > 1 := by
        simp only [List.length_cons]
        omega
      simp only [undoSelectNoName, specUndoNoName, if_pos hgt,
        atJS_neg_two (a :: b :: u) hlen]

/-- Claim C10, counterexample: an empty-string name is falsy in JS, so
`undo("")` with two applied migrations performs the no-name selection and
rolls back to the second-to-last applied migration, even though the empty
name matches no applied migration and the claim then requires the call to
fail. -/
theorem claim_c10_counterexample :
    undoSelectTarget [migA, migB] (some ("")) = .rollback (.mig migA) ∧
    doesNameMatch ("") migA.timestamp migA.label = false ∧
    doesNameMatch ("") migB.timestamp migB.label = false ∧
    UndoOutcome.rollback (.mig migA) ≠ UndoOutcome.notFound :=
  ⟨by decide, by decide, by decide, by decide⟩

/-- Claim C10, amended: the rollback-target selection of `undo` agrees with
the selection rule on every applied-migration list and name argument, with an
empty-string name treated like an absent one (JS truthiness of `if (name)`):
a non-empty name whose first match is the earliest applied migration targets
the sentinel, one matching a later applied migration targets the applied
migration immediately before it, a non-empty unmatched name fails; with no
name or an empty-string name, zero applied migrations is a no-op success,
exactly one targets the sentinel, and more than one targets the
second-to-last. -/
theorem claim_c10_amended (applied : List Migration) (nameArg : Option String) :
    undoSelectTarget applied nameArg = specUndoTarget applied nameArg := by
  cases nameArg with
  | none =>
    show undoSelectNoName applied = specUndoNoName applied
    exact undoNoName_eq_spec applied
  | some nm =>
    by_cases he : nm.isEmpty = true
    · simp only [undoSelectTarget, specUndoTarget, if_pos he,
        undoNoName_eq_spec]
    · simp only [undoSelectTarget, specUndoTarget, if_neg he]
      cases hf : applied.find? (fun m => doesNameMatch nm m.timestamp m.label) with
    | none =>
      have hall : ∀ x ∈ applied, doesNameMatch nm x.timestamp x.label = false := by
        intro x hx
        have := List.find?_eq_none.mp hf x hx
        simpa using this
      simp [firstMatchIdx_eq_none hall]
    | some found =>
      obtain ⟨k, hfmi, hk, hfirst⟩ := firstMatch_spec hf
      have hpf : doesNameMatch nm found.timestamp found.label = true := by
        have := List.find?_some hf
        simpa using this
      have hidx : indexOfJS found applied = (k : Int) := by
        apply findIndexJS_eq_of_first hk
        · simp
        · intro j x hj hx
          have hxm := hfirst j x hj hx
          have hxf : x ≠ found := by
            intro he
            rw [he, hpf] at hxm
            exact Bool.true_eq_false.mp hxm
          simp [hxf]
      simp only [hfmi, hidx]
      cases k with
      | zero =>
        rw [if_neg (by omega : ((0 : Nat) : Int) ≠ -1),
          if_pos (by omega : ((0 : Nat) : Int) = 0)]
      | succ k2 =>
        rw [if_neg (by omega : ((k2 + 1 : Nat) : Int) ≠ -1),
          if_neg (by omega : ¬((k2 + 1 : Nat) : Int) = 0),
          show ((k2 + 1 : Nat) : Int) - 1 = ((k2 : Nat) : Int) by omega,
          atJS_ofNat]

/-- Claim C2: in the event-loop model of the tail of `undo`/`undoAll`, a
complete execution exists in which `migrator.migrateTo` is invoked (trace
position 1) strictly before `seeder.seedTo` settles (trace position 2): the
`Result` holding the async closure's promise is discarded without being
awaited, so nothing orders the completion of the seed rollback before the
start of the migration rollback, contradicting the claimed temporal ordering. -/
theorem claim_c2_code_bug :
    UndoReach ⟨.finished, .finished,
      [.seedToStart, .migrateToStart, .seedToDone, .migrateToDone]⟩ ∧
    [RunnerEv.seedToStart, .migrateToStart, .seedToDone, .migrateToDone][1]? =
      some RunnerEv.migrateToStart ∧
    [RunnerEv.seedToStart, .migrateToStart, .seedToDone, .migrateToDone][2]? =
      some RunnerEv.seedToDone := by
  refine ⟨?_, by simp, by simp⟩
  have h1 : UndoReach undoInit := UndoReach.init
  have h2 := h1.step (UndoStep.spawnSeed [])
  have h3 := h2.step (UndoStep.callMigrate _ _)
  have h4 := h3.step (UndoStep.seedDone _ _ (Or.inl rfl))
  exact h4.step (UndoStep.migrateDone _ _)

/-- Witness for claim C3 at the spec's running example: the `NoMigrations`
ceiling is 1000 and the resolver picks seed 500_x. -/
theorem claim_c3_witness :
    (migrationsAscending [migA, migB] ∧ seedsAscending [seedX, seedY, seedZ]) ∧
    getTargetSeed [migA, migB] [seedX, seedY, seedZ] (some .noMigrations) none =
      some (.ok (seedOrNoSeeds (specLastSeedLE [seedX, seedY, seedZ]
        (specCeilingNoMigrations [migA, migB])))) :=
  ⟨⟨by decide, by decide⟩,
    claim_c3 [migA, migB] [seedX, seedY, seedZ] (by decide) (by decide)⟩

/-- Witness for claim C4: with 1000_a applied and 2000_b unapplied, the
earliest-unapplied ceiling is 2000 and the resolver picks seed 1500_y. -/
theorem claim_c4_witness :
    (migrationsAscending [migA, migB0] ∧ seedsAscending [seedX, seedY, seedZ]) ∧
    getTargetSeed [migA, migB0] [seedX, seedY, seedZ] none none =
      some (.ok (seedOrNoSeeds (specLastSeedLE [seedX, seedY, seedZ]
        (specCeilingUnapplied [migA, migB0])))) :=
  ⟨⟨by decide, by decide⟩,
    claim_c4 [migA, migB0] [seedX, seedY, seedZ] (by decide) (by decide)⟩

/-- Witness for the amended claim C6: with migrations 1000_a (non-final) and
2000_b (final), the absent name 3000_c and requested seed 1500_y, the
omitted, sentinel, non-final and absent-name cases all return an explicit
result, and the final-position reference throws. -/
theorem claim_c6_amended_witness :
    (namesNodup [migA, migB] ∧
      ([migA, migB] : List Migration)[0]? = some migA ∧
      0 + 1 < ([migA, migB] : List Migration).length ∧
      ([migA, migB] : List Migration)[1]? = some migB ∧
      1 + 1 = ([migA, migB] : List Migration).length ∧
      migC.name ∉ ([migA, migB] : List Migration).map (fun x => x.name) ∧
      some (SeedRef.seed seedY) ≠ some SeedRef.noSeeds) ∧
    ((∃ r, getTargetSeed [migA, migB] [seedX] (some (.mig migA))
        (some (.seed seedY)) = some r) ∧
    (∃ r, getTargetSeed [migA, migB] [seedX] (some (.mig migC))
        (some (.seed seedY)) = some r) ∧
    (∃ r, getTargetSeed [migA, migB] [seedX] (some .noMigrations)
        (some (.seed seedY)) = some r) ∧
    (∃ r, getTargetSeed [migA, migB] [seedX] none
        (some (.seed seedY)) = some r) ∧
    getTargetSeed [migA, migB] [seedX] (some (.mig migB))
      (some (.seed seedY)) = none) :=
  ⟨⟨by decide, by decide, by decide, by decide, by decide, by decide,
    by decide⟩,
    claim_c6_amended [migA, migB] [seedX] (some (.seed seedY)) migA migB migC
      0 1 (by decide) (by decide) (by decide) (by decide) (by decide)
      (by decide) (by decide)⟩

/-- Witness for claim C8 at the spec's P4 example: query digits 78 match
timestamp 1612345678 as a right-aligned suffix, with equal labels. -/
theorem claim_c8_witness :
    ((("78").toList ≠ ([] : List Char) ∧
        (∀ c ∈ ("78").toList, isDigitChar c = true)) ∧
      (("create_table").toList ≠ ([] : List Char) ∧
        (∀ c ∈ ("create_table").toList, isNewlineChar c = false))) ∧
    doesNameMatch (String.mk (("78").toList ++ '_' :: ("create_table").toList))
        1612345678 ("create_table") =
      (String.mk (("create_table").toList) == ("create_table" : String) &&
        List.isSuffixOf (("78").toList) (Nat.toDigits 10 1612345678)) :=
  ⟨⟨⟨by decide, by decide⟩, ⟨by decide, by decide⟩⟩,
    claim_c8 (("78").toList) (("create_table").toList) 1612345678 ("create_table")
      (by decide) (by decide) (by decide) (by decide)⟩

/-- Witness for the amended claim C9: the empty query, the queries 123_ and
_foo, and the pure-digit query 123 behave as the amended claim states against
an artifact labelled foo. -/
theorem claim_c9_amended_witness :
    ((∀ c ∈ (['1', '2', '3'] : List Char), isDigitChar c = true) ∧
      (['f', 'o', 'o'] : List Char) ≠ [] ∧
      (∀ c ∈ (['f', 'o', 'o'] : List Char), isNewlineChar c = false) ∧
      (['1', '2', '3'] : List Char) ≠ [] ∧
      (∀ c ∈ (['1', '2', '3'] : List Char), isNewlineChar c = false) ∧
      ((['1', '2', '3'] : List Char).drop
        (((['1', '2', '3'] : List Char).takeWhile isDigitChar).length)).head? ≠
        some '_') ∧
    (doesNameMatch ("") 42 ("foo") = false ∧
      doesNameMatch (String.mk (['1', '2', '3'] ++ ['_'])) 42 ("foo") = false ∧
      doesNameMatch (String.mk ('_' :: ['f', 'o', 'o'])) 42 ("foo") =
        (String.mk ['f', 'o', 'o'] == ("foo" : String)) ∧
      doesNameMatch (String.mk ['1', '2', '3']) 42 ("foo") =
        (String.mk ['1', '2', '3'] == ("foo" : String))) :=
  ⟨⟨by decide, by decide, by decide, by decide, by decide, by decide⟩,
    claim_c9_amended ['1', '2', '3'] ['f', 'o', 'o'] ['1', '2', '3'] 42 ("foo")
      (by decide) (by decide) (by decide) (by decide) (by decide) (by decide)⟩

end Kyselyx
